import Mathlib

/-!
Shallow embedding of the apiserver2 core (cppservergit/apiserver2) used to
check the natural-language specification against the code.

Strings are modelled as lists of characters (`Str`), mirroring the byte-wise
operations of `std::string_view`.  Each definition is translated from the
named C++ source function; comments cite the source file.
-/

/-- Byte strings of the C++ core, modelled as lists of characters. -/
abbrev Str := List Char

/-- ASCII `std::tolower` (C locale) as used by `sv_ci_equal` / `sv_ci_hash`
in src/http_request.hpp: only characters between A and Z are mapped. -/
def toLowerCh (c : Char) : Char :=
  if 'A' ≤ c ∧ c ≤ 'Z' then Char.ofNat (c.toNat + 32) else c

/-- Case-insensitive string equality, from `http::sv_ci_equal`
(src/http_request.hpp): equal sizes and character-wise `tolower` equality. -/
def ciEqual (a b : Str) : Bool :=
  a.length == b.length && (a.zip b).all fun p => toLowerCh p.1 == toLowerCh p.2

/-- First index at which `needle` occurs inside the string, mirroring
`std::string_view::find` for a substring (none = npos). -/
def findSeqIdx? (needle : Str) : Str → Option Nat
  | [] => if needle.isPrefixOf ([] : Str) then some 0 else none
  | c :: t =>
    if needle.isPrefixOf (c :: t) then some 0
    else (findSeqIdx? needle t).map (· + 1)

/-- Substring containment, mirroring `std::string_view::contains` /
`std::string::contains` for a substring needle. -/
def containsSeq (needle hay : Str) : Bool :=
  (findSeqIdx? needle hay).isSome

/-- Index of the first occurrence of a single character
(`std::string_view::find(char)`). -/
def findCharIdx? (c : Char) (s : Str) : Option Nat :=
  s.findIdx? (· == c)

/-- Fuel-driven splitter on a separator sequence. -/
def splitOnSeqFuel (sep : Str) : Nat → Str → List Str
  | 0, s => [s]
  | f + 1, s =>
    match findSeqIdx? sep s with
    | none => [s]
    | some i => s.take i :: splitOnSeqFuel sep f (s.drop (i + sep.length))

/-- Split a string on a separator sequence, mirroring
`std::views::split` over a string pattern (keeps empty segments). -/
def splitOnSeq (sep s : Str) : List Str :=
  splitOnSeqFuel sep (s.length + 1) s

/-- Strip leading ASCII space and tab, mirroring
`value.remove_prefix(value.find_first_not_of(" \t"))`. -/
def trimLeftWs (s : Str) : Str :=
  s.dropWhile fun c => c == ' ' || c == '\t'

/-- Trim leading and trailing space/tab, mirroring `trim_sv`
(src/http_request.cpp). -/
def trimWs (s : Str) : Str :=
  ((trimLeftWs s).reverse.dropWhile fun c => c == ' ' || c == '\t').reverse

/-- Decimal digit-string value, the result of a fully consuming
`std::from_chars` on an unsigned integer. -/
def natOfDigits (s : Str) : Nat :=
  s.foldl (fun a c => a * 10 + (c.toNat - 48)) 0

/-- The CRLF line terminator. -/
def crlf : Str := "\r\n".toList

/-- The CRLFCRLF header-section terminator. -/
def crlfcrlf : Str := "\r\n\r\n".toList

-- ===================================================================
--  socket_buffer  (src/src/socket_buffer.hpp)
-- ===================================================================

namespace SockBuf

/-- `socket_buffer::k_chunk_size` (src/socket_buffer.hpp): 4096. -/
def kChunkSize : Nat := 4096

/-- `socket_buffer::k_max_size` (src/socket_buffer.hpp):
a hardcoded constant `4 * 1024 * 1024`. -/
def kMaxSize : Nat := 4 * 1024 * 1024

/-- State of a `socket_buffer`: the size of `m_buffer` and the write
cursor `m_pos`.  The byte contents are irrelevant to the growth logic. -/
structure SocketBuffer where
  bufSize : Nat
  pos : Nat
deriving DecidableEq, Repr

/-- Initial buffer: `m_buffer = std::vector<char>(k_chunk_size, 0)`,
`m_pos = 0`. -/
def SocketBuffer.init : SocketBuffer := ⟨kChunkSize, 0⟩

/-- `socket_buffer::update_pos` (src/socket_buffer.hpp lines 21-33):
commit `n` read bytes; grow by a chunk when used space exceeds 75% of
capacity; throw `socket_buffer_error` when already at `k_max_size`. -/
def SocketBuffer.updatePos (b : SocketBuffer) (n : Int) : Except Str SocketBuffer :=
  if n ≤ 0 then .ok b
  else
    let pos := b.pos + n.toNat
    if pos * 4 > b.bufSize * 3 then
      if b.bufSize ≥ kMaxSize then .error "Maximum buffer size reached.".toList
      else .ok ⟨min (b.bufSize + kChunkSize) kMaxSize, pos⟩
    else .ok ⟨b.bufSize, pos⟩

/-- `socket_buffer::available_size`: writable tail length. -/
def SocketBuffer.availableSize (b : SocketBuffer) : Nat := b.bufSize - b.pos

/-- Commit a sequence of reads in order, stopping at the first error,
mirroring the reactor read loop feeding `update_pos`. -/
def commitReads (b : SocketBuffer) : List Int → Except Str SocketBuffer
  | [] => .ok b
  | n :: rest =>
    match b.updatePos n with
    | .error e => .error e
    | .ok b2 => commitReads b2 rest

end SockBuf

-- ===================================================================
--  HTTP request parsing  (src/src/http_request.cpp / .hpp)
-- ===================================================================

namespace Http

/-- `http::method` (src/http_request.hpp). -/
inductive Method where
  | get
  | post
  | options
  | unknown
deriving DecidableEq, Repr

/-- `http::status` (src/http_response.hpp), plus `service_unavailable`.
Modelled from the spec: `server.cpp` responds `503 Service Unavailable`
on worker-queue backpressure, but the `http::status` enum present under
src/ is a superseded copy without that enumerator; the spec's error
taxonomy (`503 Service Unavailable` for backpressure) supplies it. -/
inductive HStatus where
  | ok
  | no_content
  | bad_request
  | unauthorized
  | forbidden
  | not_found
  | entity_too_large
  | internal_server_error
  | service_unavailable
deriving DecidableEq, Repr

/-- Header map, as the association produced by repeated `try_emplace`
into `http::header_map` (case-insensitive keys). -/
abbrev Headers := List (Str × Str)

/-- Case-insensitive header lookup, as `m_headers.find(key)` on the
`sv_ci_hash`/`sv_ci_equal` keyed `std::unordered_map`. -/
def headerLookup (hs : Headers) (key : Str) : Option Str :=
  (hs.find? fun p => ciEqual p.1 key).map (·.2)

/-- `m_headers.contains(key)` (case-insensitive). -/
def headerContains (hs : Headers) (key : Str) : Bool :=
  (headerLookup hs key).isSome

/-- `try_emplace`: insert only when no case-insensitively equal key exists. -/
def tryEmplace (hs : Headers) (k v : Str) : Headers :=
  if headerContains hs k then hs else hs ++ [(k, v)]

/-- The RFC 7230 tchar set of `is_valid_header_key`
(src/http_request.cpp lines 17-32); char codes 39 and 96 are the
apostrophe and the backtick from the C++ literal. -/
def validTchars : Str :=
  "!#$%&".toList ++ [Char.ofNat 39] ++ "*+-.^_".toList ++ [Char.ofNat 96] ++
    "|~0123456789abcdefghijklmnopqrstuvwxyzABCDEFGHIJKLMNOPQRSTUVWXYZ".toList

/-- `is_valid_header_key` (src/http_request.cpp): non-empty, tchars only. -/
def isValidHeaderKey (key : Str) : Bool :=
  !key.isEmpty && key.all fun c => validTchars.contains c

/-- `is_valid_header_value` (src/http_request.cpp): no bare CR or LF. -/
def isValidHeaderValue (v : Str) : Bool :=
  v.all fun c => !(c == '\r' || c == '\n')

/-- `MAX_PATH_LENGTH` (src/http_request.cpp line 44). -/
def maxPathLength : Nat := 2048

/-- The forbidden path characters of `is_valid_path`: the C++ literal
`"%\0\r\n\\"sv` holds percent, NUL, CR, LF and backslash. -/
def invalidPathChars : Str := "%\x00\r\n\\".toList

/-- `is_valid_path` (src/http_request.cpp lines 49-69). -/
def isValidPath (p : Str) : Bool :=
  match p with
  | [] => false
  | c :: _ =>
    c == '/' && (!p.any fun ch => invalidPathChars.contains ch) &&
      !containsSeq "..".toList p

/-- Error text of the zero-query policy in `parse_uri`; char code 39 is
the single quote around the URI in the formatted message. -/
def msgQueryNotAllowed (uri : Str) : Str :=
  "URI query parameters are not allowed. URI: ".toList ++
    [Char.ofNat 39] ++ uri ++ [Char.ofNat 39]

/-- `request_parser::parse_uri` (src/http_request.cpp lines 436-456):
reject any `?`, reject over-long URIs, store the URI as the path and
validate it. -/
def parseUri (uri : Str) : Except Str Str :=
  if uri.contains '?' then .error (msgQueryNotAllowed uri)
  else if uri.length > maxPathLength then
    .error ("URI exceeds maximum length of 2048. URI: ".toList ++ uri)
  else if !isValidPath uri then
    .error ("Invalid URI path: contains forbidden characters or traversal sequences. URI: ".toList ++ uri)
  else .ok uri

/-- `request_parser::parse_request_line` (src/http_request.cpp lines
416-433): split on spaces, take the second token as the URI. -/
def parseRequestLine (line : Str) : Except Str Str :=
  match splitOnSeq [' '] line with
  | [] => .error "Malformed request line: empty.".toList
  | [_] => .error "Malformed request line: missing URI.".toList
  | _ :: uri :: _ => parseUri uri

/-- `request_parser::find_and_store_header_end` (src/http_request.cpp):
position just past the first CRLFCRLF, the header-section size. -/
def findHeaderEnd (buf : Str) : Option Nat :=
  (findSeqIdx? crlfcrlf buf).map (· + 4)

/-- Strict method-token match of `parse_and_store_method`. -/
def methodOfToken (tok : Str) : Method :=
  if tok = "GET".toList then .get
  else if tok = "POST".toList then .post
  else if tok = "OPTIONS".toList then .options
  else .unknown

/-- `request_parser::parse_and_store_method` (src/http_request.cpp lines
326-363), as a function of the buffered bytes: `some m` exactly when the
source function succeeds (a known method was identified). -/
def identifyMethod (buf : Str) (hs : Nat) : Option Method :=
  if buf.isEmpty || buf.length < hs then none
  else
    match findSeqIdx? crlf buf with
    | none => none
    | some rle =>
      if rle == 0 || rle ≥ hs - 4 then none
      else
        let line := buf.take rle
        match findCharIdx? ' ' line with
        | none => none
        | some sp =>
          let m := methodOfToken (line.take sp)
          if m = .unknown then none else some m

/-- The `Content-Length` scan loop of `parse_and_store_content_length`
(src/http_request.cpp lines 393-413): the first line whose key matches
case-insensitively decides; its value (leading space/tab stripped) must
be all digits and fully consumed. -/
def parseCLLines : List Str → Option Nat
  | [] => none
  | line :: rest =>
    match findCharIdx? ':' line with
    | none => parseCLLines rest
    | some cp =>
      if ciEqual (line.take cp) "Content-Length".toList then
        let v := trimLeftWs (line.drop (cp + 1))
        if !v.isEmpty && v.all Char.isDigit then some (natOfDigits v) else none
      else parseCLLines rest

/-- `request_parser::parse_and_store_content_length` (src/http_request.cpp
lines 365-414).  The `lenI < 0` disjunct mirrors the `size_t` wrap of
`(*m_identifiedHeaderSize - 4) - headers_part_start`, which makes the
bounds guard fail in the source. -/
def parseContentLength (buf : Str) (hs : Nat) : Option Nat :=
  match findSeqIdx? crlf buf with
  | none => none
  | some rle =>
    let start := rle + 2
    let lenI : Int := (hs : Int) - 4 - start
    if start ≥ hs ∨ lenI < 0 ∨ (start : Int) + lenI > buf.length then none
    else
      let headersPart := (buf.drop start).take (hs - 4 - start)
      parseCLLines (splitOnSeq crlf headersPart)

/-- `request_parser::eof` (src/http_request.cpp lines 228-250), as a
function of the buffered bytes (each cached step of the source is stable
under appends, so recomputation agrees with the cache). -/
def eof (buf : Str) : Bool :=
  match findHeaderEnd buf with
  | none => false
  | some hs =>
    match identifyMethod buf hs with
    | none => false
    | some .get => true
    | some .options => true
    | some .unknown => false
    | some .post =>
      match parseContentLength buf hs with
      | none => false
      | some n => decide (buf.length ≥ hs + n)

/-- The header-line loop of `request_parser::parse_headers`
(src/http_request.cpp lines 458-495). -/
def parseHeaderLines (acc : Headers) : List Str → Except Str Headers
  | [] => .ok acc
  | line :: rest =>
    if line.isEmpty then parseHeaderLines acc rest
    else
      match findCharIdx? ':' line with
      | none => .error ("Malformed header line: ".toList ++ line)
      | some cp =>
        let key := line.take cp
        if !isValidHeaderKey key then
          .error ("Invalid header key: ".toList ++ key)
        else
          let value := trimLeftWs (line.drop (cp + 1))
          if !isValidHeaderValue value then
            .error ("Invalid characters in header value for key: ".toList ++ key)
          else if ciEqual key "Transfer-Encoding".toList then
            .error "Transfer-Encoding is not supported.".toList
          else if ciEqual key "Host".toList && headerContains acc "Host".toList then
            .error "Duplicate Host header detected.".toList
          else parseHeaderLines (tryEmplace acc key value) rest

/-- `request_parser::parse_headers` applied to the header block. -/
def parseHeadersBlock (headersSv : Str) : Except Str Headers :=
  parseHeaderLines [] (splitOnSeq crlf headersSv)

/-- The parsed request value produced by `finalize` (the query/form
parameters and file parts of multipart bodies are populated by
`process_multipart_part`, which cannot fail, and are not inspected by
any claim; `body = none` models the `std::monostate` alternative). -/
structure Req where
  method : Method
  path : Str
  headers : Headers
  contentLength : Nat
  body : Option Str
deriving DecidableEq, Repr

/-- `request_parser::parse_body` (src/http_request.cpp lines 497-535).
`jsonOk` abstracts the `json::json_parser` constructor of the JSON
collaborator (spec section 6: `json.parse(bytes)`): it reports whether
construction succeeds without throwing `json::parsing_error`. -/
def parseBody (jsonOk : Str → Bool) (bodyView : Str) (headers : Headers) : Except Str (Option Str) :=
  match headerLookup headers "content-type".toList with
  | none => .ok (some bodyView)
  | some ct =>
    if "application/json".toList.isPrefixOf ct then
      if jsonOk bodyView then .ok (some bodyView)
      else .error "JSON parse error: invalid payload".toList
    else if "multipart/form-data".toList.isPrefixOf ct then
      match findSeqIdx? "boundary=".toList ct with
      | some _ => .ok none
      | none => .error "Malformed multipart/form-data: boundary not found.".toList
    else .ok (some bodyView)

/-- Body of `request_parser::finalize` past the eof guard
(src/http_request.cpp lines 263-310). -/
def finalizeAux (jsonOk : Str → Bool) (buf : Str) : Except Str Req :=
  match findSeqIdx? crlf buf with
  | none => .error "Malformed request: request line not found.".toList
  | some rle =>
    match findHeaderEnd buf with
    | none => .error "Attempted to finalize before request reached eof().".toList
    | some hs =>
      match parseRequestLine (buf.take rle) with
      | .error e => .error e
      | .ok path =>
        let m := (identifyMethod buf hs).getD .unknown
        let headersSv := (buf.drop (rle + 2)).take (hs - 4 - (rle + 2))
        match parseHeadersBlock headersSv with
        | .error e => .error e
        | .ok headers =>
          if m = .post then
            match parseContentLength buf hs with
            | none => .error "POST request without Content-Length header.".toList
            | some n =>
              let ctCheck : Except Str Unit :=
                if n > 0 then
                  match headerLookup headers "content-type".toList with
                  | none => .error "POST request with body is missing Content-Type header.".toList
                  | some ct =>
                    if !("application/json".toList.isPrefixOf ct) &&
                        !("multipart/form-data".toList.isPrefixOf ct) then
                      .error ("Unsupported Content-Type for POST: ".toList ++ ct)
                    else .ok ()
                else .ok ()
              match ctCheck with
              | .error e => .error e
              | .ok _ =>
                match parseBody jsonOk ((buf.drop hs).take n) headers with
                | .error e => .error e
                | .ok b => .ok ⟨.post, path, headers, n, b⟩
          else .ok ⟨m, path, headers, 0, none⟩

/-- `request_parser::finalize` (src/http_request.cpp lines 252-310) on a
fresh (not yet finalized) buffer: guarded by `eof`, then the layered
re-parse of request line, headers and body. -/
def finalize (jsonOk : Str → Bool) (buf : Str) : Except Str Req :=
  if eof buf then finalizeAux jsonOk buf
  else .error "Attempted to finalize before request reached eof().".toList

/-- `request::get_bearer_token` (src/http_request.cpp lines 597-602):
case-insensitive header-name lookup, case-sensitive "Bearer " prefix,
suffix after the first 7 bytes. -/
def getBearerToken (headers : Headers) : Option Str :=
  match headerLookup headers "Authorization".toList with
  | some v => if "Bearer ".toList.isPrefixOf v then some (v.drop 7) else none
  | none => none

end Http

-- ===================================================================
--  Server core  (src/src/server.cpp / server.hpp, cors.hpp,
--  api_router.hpp, shared_queue.hpp, thread_pool.hpp)
-- ===================================================================

namespace Server

open Http

/-- `g_version` (src/server.hpp line 30). -/
def gVersion : Str := "1.1.1".toList

/-- Error-body builder: `std::format(R"({{"error":"{}"}})", msg)`;
\x7b and \x7d are the JSON braces. -/
def jsonErrorBody (msg : Str) : Str :=
  "\x7b\"error\":\"".toList ++ msg ++ "\"\x7d".toList

/-- The generic parse-failure body sent by `process_request`
(src/server.cpp line 407). -/
def bodyBadRequest : Str := jsonErrorBody "Bad Request".toList

/-- The `/ping` body (src/server.cpp line 494). -/
def bodyPing : Str := "\x7b\"status\":\"OK\"\x7d".toList

/-- The `/version` body (src/server.cpp lines 502-503). -/
def versionBody (podName : Str) : Str :=
  "\x7b\"pod_name\":\"".toList ++ podName ++ "\",\"version\":\"".toList ++
    gVersion ++ "\"\x7d".toList

/-- `cors::is_origin_allowed` (src/cors.hpp lines 21-36): no Origin
header passes; otherwise exact, case-sensitive membership. -/
def isOriginAllowed (origin : Option Str) (allowed : List Str) : Bool :=
  match origin with
  | none => true
  | some o => allowed.contains o

/-- Outcome of running an endpoint's handler, covering the exception
kinds caught at the dispatch boundary in `execute_handler`
(src/server.cpp lines 181-198). -/
inductive HandlerOutcome where
  | success (s : HStatus) (body : Str)
  | sqlError (msg : Str)
  | jsonParseError (msg : Str)
  | jsonOutputError (msg : Str)
  | curlError (msg : Str)
  | otherError (msg : Str)
deriving DecidableEq, Repr

/-- `api_endpoint` (src/api_router.hpp lines 23-28).  `validatorError`
is the `validation::validation_error` thrown by the endpoint's
validator on this request, if any; `outcome` is what the handler does
on this request when reached. -/
structure ApiEndpoint where
  method : Method
  isSecure : Bool
  validatorError : Option Str
  outcome : HandlerOutcome
deriving DecidableEq, Repr

/-- `server::io_worker::validate_token` (src/server.cpp lines 144-163):
true exactly when a bearer token is present and `jwt::is_valid`
succeeds.  `jwtValid` abstracts the JWT collaborator (spec section 6:
`jwt.is_valid(token) -> claims | error`, signature + expiration); it
returns the claims map on success. -/
def validateToken (jwtValid : Str → Option (List (Str × Str))) (headers : Headers) : Bool :=
  match getBearerToken headers with
  | none => false
  | some tok => (jwtValid tok).isSome

/-- The validator/handler phase of `execute_handler`, after the method
and token gates (src/server.cpp lines 178-198): exceptions translate to
fixed status/body pairs. -/
def afterAuth (ep : ApiEndpoint) : HStatus × Str :=
  match ep.validatorError with
  | some m => (.bad_request, jsonErrorBody m)
  | none =>
    match ep.outcome with
    | .success s b => (s, b)
    | .sqlError _ => (.internal_server_error, jsonErrorBody "Database operation failed".toList)
    | .jsonParseError _ => (.bad_request, jsonErrorBody "Invalid JSON format in request".toList)
    | .jsonOutputError _ => (.internal_server_error, jsonErrorBody "Failed to generate JSON response".toList)
    | .curlError _ => (.internal_server_error, jsonErrorBody "Internal communication failed".toList)
    | .otherError _ => (.internal_server_error, jsonErrorBody "Internal Server Error".toList)

/-- `server::io_worker::execute_handler` (src/server.cpp lines 165-199):
method gate, then the security gate for secure endpoints, then the
validator and handler. -/
def executeHandler (jwtValid : Str → Option (List (Str × Str)))
    (ep : ApiEndpoint) (req : Req) : HStatus × Str :=
  if ep.method ≠ req.method then
    (.bad_request, jsonErrorBody "Method Not Allowed".toList)
  else if ep.isSecure && !validateToken jwtValid req.headers then
    (.unauthorized, jsonErrorBody "Invalid or missing token".toList)
  else afterAuth ep

/-- The `check_bearer_auth` lambda of `handle_internal_api`
(src/server.cpp lines 444-475): empty configured key disables the
check; otherwise the Authorization value needs length at least 7, a
case-insensitive "bearer " prefix, and an exact key match after it. -/
def checkBearerAuth (apiKey : Str) (headers : Headers) : Bool :=
  if apiKey.isEmpty then true
  else
    match headerLookup headers "Authorization".toList with
    | none => false
    | some v =>
      if v.length < 7 then false
      else if !ciEqual (v.take 7) "bearer ".toList then false
      else v.drop 7 == apiKey

/-- `server::io_worker::handle_internal_api` (src/server.cpp lines
440-507).  `metricsJson` and `metricsProm` abstract the metrics
collaborator bodies; `podName` the pod name.  Returns the inline
response when the path is internal, none otherwise. -/
def handleInternalApi (apiKey metricsJson metricsProm podName : Str)
    (req : Req) : Option (HStatus × Str) :=
  if req.path = "/metrics".toList then
    some (if checkBearerAuth apiKey req.headers then (.ok, metricsJson)
          else (.bad_request, bodyBadRequest))
  else if req.path = "/metricsp".toList then
    some (if checkBearerAuth apiKey req.headers then (.ok, metricsProm)
          else (.bad_request, bodyBadRequest))
  else if req.path = "/ping".toList then
    some (.ok, bodyPing)
  else if req.path = "/version".toList then
    some (if checkBearerAuth apiKey req.headers then (.ok, versionBody podName)
          else (.bad_request, bodyBadRequest))
  else none

/-- Result of `process_request` on the I/O thread: either a response is
pushed to the response queue, or the request is handed to
`dispatch_to_worker` for the matched endpoint. -/
inductive ProcResult where
  | respond (s : HStatus) (body : Str)
  | dispatched (ep : ApiEndpoint) (req : Req)
deriving DecidableEq, Repr

/-- `server::io_worker::process_request` (src/server.cpp lines 397-438):
finalize, CORS gate, OPTIONS preflight (`set_options` emits 204 with an
empty body), inline internal endpoints, route lookup, dispatch. -/
def processRequest (jsonOk : Str → Bool) (origins : List Str)
    (apiKey metricsJson metricsProm podName : Str)
    (router : Str → Option ApiEndpoint) (buf : Str) : ProcResult :=
  match finalize jsonOk buf with
  | .error _ => .respond .bad_request bodyBadRequest
  | .ok req =>
    if !isOriginAllowed (headerLookup req.headers "Origin".toList) origins then
      .respond .forbidden (jsonErrorBody "CORS origin not allowed".toList)
    else if req.method = .options then
      .respond .no_content []
    else
      match handleInternalApi apiKey metricsJson metricsProm podName req with
      | some (s, b) => .respond s b
      | none =>
        match router req.path with
        | none => .respond .not_found (jsonErrorBody "Not Found".toList)
        | some ep => .dispatched ep req

-- ----- bounded queues and dispatch backpressure -----

/-- `shared_queue` (src/shared_queue.hpp): FIFO items and the capacity
bound `m_capacity`. -/
structure SharedQueue (α : Type) where
  items : List α
  capacity : Nat
deriving DecidableEq, Repr

/-- `shared_queue::push` (src/shared_queue.hpp lines 50-68): throws
`queue_full_error` when a positive capacity is reached, else appends. -/
def SharedQueue.push {α : Type} (q : SharedQueue α) (x : α) : Except Unit (SharedQueue α) :=
  if q.capacity > 0 ∧ q.items.length ≥ q.capacity then .error ()
  else .ok ⟨q.items ++ [x], q.capacity⟩

/-- `thread_pool` state: the per-worker task queues and the round-robin
counter `m_next_queue`. -/
structure ThreadPool (α : Type) where
  queues : List (SharedQueue α)
  nextQueue : Nat
deriving DecidableEq, Repr

/-- Modelled from the spec: the two-argument `thread_pool` constructor
invoked by `server.cpp` (`std::make_unique<thread_pool>(worker_thread_count,
queue_capacity)`) is absent from src/ — thread_pool.hpp holds a
superseded one-argument copy whose queues are unbounded.  Per the spec
("The worker task queue has a fixed capacity (default 1,000 per worker
queue)"), the constructor creates one bounded queue per worker thread,
each with the configured capacity. -/
def threadPoolInit (α : Type) (numThreads cap : Nat) : ThreadPool α :=
  ⟨List.replicate numThreads ⟨[], cap⟩, 0⟩

/-- `thread_pool::push_task` (src/thread_pool.hpp lines 53-56):
round-robin queue selection by the atomic counter modulo the number of
queues, then a bounded push. -/
def ThreadPool.pushTask {α : Type} (tp : ThreadPool α) (t : α) : Except Unit (ThreadPool α) :=
  let idx := tp.nextQueue % tp.queues.length
  match tp.queues.get? idx with
  | none => .error ()
  | some q =>
    match q.push t with
    | .error _ => .error ()
    | .ok q2 => .ok ⟨tp.queues.set idx q2, tp.nextQueue + 1⟩

/-- Outcome of `dispatch_to_worker` for one request. -/
inductive DispatchResult (α : Type) where
  | dispatched (tp : ThreadPool α)
  | overloaded (respQ : SharedQueue (HStatus × Str))
  | connectionClosed
deriving DecidableEq, Repr

/-- The 503 backpressure body (src/server.cpp line 232). -/
def body503 : Str := jsonErrorBody "Service Unavailable: Server Overloaded".toList

/-- `server::io_worker::dispatch_to_worker` (src/server.cpp lines
201-245): push the task; on `queue_full_error`, synthesize a
`503 Service Unavailable` response and push it to the response queue;
if even that queue is full, close the connection. -/
def dispatchToWorker {α : Type} (tp : ThreadPool α) (task : α)
    (respQ : SharedQueue (HStatus × Str)) : DispatchResult α :=
  match tp.pushTask task with
  | .ok tp2 => .dispatched tp2
  | .error _ =>
    match respQ.push (.service_unavailable, body503) with
    | .ok q2 => .overloaded q2
    | .error _ => .connectionClosed

/-- `QUEUE_CAPACITY` configuration read in the `server` constructor
(src/server.cpp line 532): `env::get<size_t>("QUEUE_CAPACITY", 1000uz)`.
`envLookup` abstracts the environment collaborator. -/
def serverQueueCapacity (envLookup : Str → Option Nat) : Nat :=
  (envLookup "QUEUE_CAPACITY".toList).getD 1000

/-- Task pool built by the `io_worker` constructor (src/server.cpp line
38) from the worker-thread count and the configured capacity. -/
def ioWorkerTaskPool (α : Type) (workerThreads cap : Nat) : ThreadPool α :=
  threadPoolInit α workerThreads cap

/-- Response-queue capacity of the `io_worker` constructor
(src/server.cpp line 41): twice the task-queue capacity. -/
def ioWorkerResponseQueueCapacity (cap : Nat) : Nat := cap * 2

end Server

-- ===================================================================
--  Concrete instances used by the claim witnesses
-- ===================================================================

/-- Concrete JWT collaborator for the pre-auth scenario: the token
"tok" passes signature and expiration validation and its claims carry
preauth=true. -/
def preauthJwtValid : Str → Option (List (Str × Str)) :=
  fun t => if t = "tok".toList then some [("preauth".toList, "true".toList)] else none

/-- A secure GET endpoint whose handler answers 200 with an empty JSON
object (for the security-gate scenarios). -/
def customerEndpoint : Server.ApiEndpoint := ⟨.get, true, none, .success .ok "\x7b\x7d".toList⟩

/-- A finalized GET request to the secure non-MFA path /customer
bearing the pre-auth token. -/
def customerReq : Http.Req :=
  ⟨.get, "/customer".toList, [("Authorization".toList, "Bearer tok".toList)], 0, none⟩

/-- A complete POST request with a non-empty body and no
Content-Length header. -/
def bufPostNoCL : Str := "POST /x HTTP/1.1\r\nHost: h\r\n\r\nabc".toList

/-- A complete POST request with Content-Length 3 and a 3-byte body. -/
def bufPostCL : Str := "POST /x HTTP/1.1\r\nContent-Length: 3\r\n\r\nabc".toList

/-- A complete GET request to /ping. -/
def bufPing : Str := "GET /ping HTTP/1.1\r\nHost: h\r\n\r\n".toList

/-- A complete GET request bearing a Transfer-Encoding header. -/
def bufTE : Str := "GET / HTTP/1.1\r\nTransfer-Encoding: chunked\r\nHost: h\r\n\r\n".toList

/-- A complete GET request whose URI carries a query string. -/
def bufQuery : Str := "GET /products?limit=1 HTTP/1.1\r\nHost: h\r\n\r\n".toList

/-- A complete GET request whose URI contains the control character
0x01 (allowed by is_valid_path, which checks only NUL, CR, LF, percent
and backslash). -/
def bufCtl : Str := "GET /a\x01b HTTP/1.1\r\nHost: h\r\n\r\n".toList

-- ===================================================================
--  Helper lemmas
-- ===================================================================

/-- Case-insensitive equality is equality of the tolower images. -/
theorem ciEqual_eq_beq_map (a b : Str) : ciEqual a b = (a.map toLowerCh == b.map toLowerCh) := by
  induction a generalizing b with
  | nil => cases b <;> simp [ciEqual]
  | cons x xs ih =>
    cases b with
    | nil => simp [ciEqual]
    | cons y ys =>
      have h := ih ys
      simp only [ciEqual, List.length_cons, List.zip_cons_cons, List.all_cons,
        List.map_cons, List.cons_beq_cons] at *
      rw [← h]
      cases hxy : (toLowerCh x == toLowerCh y) <;>
        cases hn : (xs.length == ys.length) <;>
          simp [ciEqual, hxy, hn, Bool.and_left_comm, Bool.and_comm]

/-- ciEqual respects ciEqual-equal right arguments. -/
theorem ciEqual_congr_right {k1 k2 : Str} (h : ciEqual k1 k2 = true) (a : Str) :
    ciEqual a k1 = ciEqual a k2 := by
  have hm : k1.map toLowerCh = k2.map toLowerCh := by
    have e := ciEqual_eq_beq_map k1 k2
    rw [e] at h
    exact beq_iff_eq.mp h
  rw [ciEqual_eq_beq_map, ciEqual_eq_beq_map, hm]

/-- Header lookup is case-insensitive in the key: ciEqual-equal keys
retrieve the same value. -/
theorem headerLookup_ci (hs : Http.Headers) (k1 k2 : Str) (h : ciEqual k1 k2 = true) :
    Http.headerLookup hs k1 = Http.headerLookup hs k2 := by
  unfold Http.headerLookup
  induction hs with
  | nil => rfl
  | cons p t ih =>
    by_cases hc : ciEqual p.1 k2 = true
    · rw [List.find?_cons_of_pos t (show (fun q : Str × Str => ciEqual q.1 k1) p = true by
          dsimp only; rw [ciEqual_congr_right h p.1]; exact hc),
        List.find?_cons_of_pos t (show (fun q : Str × Str => ciEqual q.1 k2) p = true from hc)]
    · rw [List.find?_cons_of_neg t (show ¬(fun q : Str × Str => ciEqual q.1 k1) p = true by
          dsimp only; rw [ciEqual_congr_right h p.1]; simpa using hc),
        List.find?_cons_of_neg t (show ¬(fun q : Str × Str => ciEqual q.1 k2) p = true by
          simpa using hc)]
      exact ih

/-- A list is a prefix of itself followed by anything. -/
theorem isPrefixOf_append_self (a rest : Str) : a.isPrefixOf (a ++ rest) = true := by
  induction a with
  | nil => simp [List.isPrefixOf]
  | cons x xs ih => simp [List.isPrefixOf, ih]

/-- A needle that prefixes the haystack is found at index 0. -/
theorem findSeqIdx?_of_isPrefixOf {needle hay : Str} (h : needle.isPrefixOf hay = true) :
    findSeqIdx? needle hay = some 0 := by
  cases hay with
  | nil =>
    unfold findSeqIdx?
    rw [h, if_pos rfl]
  | cons c t =>
    unfold findSeqIdx?
    rw [if_pos h]

/-- A string contains any of its prefixes. -/
theorem containsSeq_append_self (needle rest : Str) :
    containsSeq needle (needle ++ rest) = true := by
  unfold containsSeq
  rw [findSeqIdx?_of_isPrefixOf (isPrefixOf_append_self needle rest)]
  rfl

/-- A URI accepted by parse_uri is stored unchanged as the path and has
passed the zero-query, length and path-validity checks. -/
theorem parseUri_ok {uri p : Str} (h : Http.parseUri uri = .ok p) :
    p = uri ∧ uri.contains '?' = false ∧ uri.length ≤ Http.maxPathLength ∧
      Http.isValidPath uri = true := by
  unfold Http.parseUri at h
  split at h
  · cases h
  · split at h
    · cases h
    · split at h
      · cases h
      · refine ⟨(Except.ok.inj h).symm, ?_, ?_, ?_⟩
        · next hq _ _ => simpa using hq
        · next hl _ => omega
        · next hv => simpa using hv

/-- A path produced by parse_request_line comes from a successful
parse_uri. -/
theorem parseRequestLine_ok {line p : Str} (h : Http.parseRequestLine line = .ok p) :
    ∃ uri, Http.parseUri uri = .ok p := by
  unfold Http.parseRequestLine at h
  split at h
  · cases h
  · cases h
  · exact ⟨_, h⟩

/-- eof can only hold once the CRLFCRLF header terminator was found. -/
theorem eof_headerEnd {buf : Str} (h : Http.eof buf = true) :
    ∃ hs, Http.findHeaderEnd buf = some hs := by
  unfold Http.eof at h
  cases hh : Http.findHeaderEnd buf with
  | none => rw [hh] at h; cases h
  | some hs => exact ⟨hs, rfl⟩

/-- The path of any successfully finalized request was accepted by
parse_uri. -/
theorem finalize_ok_parseUri {jsonOk : Str → Bool} {buf : Str} {r : Http.Req}
    (h : Http.finalize jsonOk buf = .ok r) :
    ∃ uri, Http.parseUri uri = .ok r.path := by
  unfold Http.finalize at h
  split at h
  · unfold Http.finalizeAux at h
    dsimp only at h
    split at h
    · cases h
    · split at h
      · cases h
      · split at h
        · cases h
        · next path hprl =>
          have hpath : r.path = path := by
            repeat' split at h
            all_goals try cases h
            all_goals rfl
          rw [hpath]
          exact parseRequestLine_ok hprl
  · cases h

/-- The Content-Length scan returns none when no header line carries a
case-insensitive Content-Length key. -/
theorem parseCLLines_none (lines : List Str)
    (h : ∀ l ∈ lines, ∀ cp, findCharIdx? ':' l = some cp →
      ciEqual (l.take cp) "Content-Length".toList = false) :
    Http.parseCLLines lines = none := by
  induction lines with
  | nil => rfl
  | cons l rest ih =>
    unfold Http.parseCLLines
    cases hc : findCharIdx? ':' l with
    | none => exact ih fun l2 hl2 => h l2 (List.mem_cons_of_mem l hl2)
    | some cp =>
      dsimp only
      rw [if_neg (by rw [h l (List.mem_cons_self l rest) cp hc]; simp)]
      exact ih fun l2 hl2 => h l2 (List.mem_cons_of_mem l hl2)

/-- The header-line loop of parse_headers fails on any line list
containing a line whose key is case-insensitively Transfer-Encoding:
either that line (or an earlier one) trips a validity check, or the
explicit Transfer-Encoding rejection fires. -/
theorem parseHeaderLines_te_error (acc : Http.Headers) (lines : List Str)
    (h : ∃ l ∈ lines, ∃ cp, findCharIdx? ':' l = some cp ∧
      ciEqual (l.take cp) "Transfer-Encoding".toList = true) :
    ∃ e, Http.parseHeaderLines acc lines = .error e := by
  induction lines generalizing acc with
  | nil => simp at h
  | cons l rest ih =>
    unfold Http.parseHeaderLines
    rcases h with ⟨l0, hmem, cp0, hcp0, hci0⟩
    rcases List.mem_cons.mp hmem with rfl | hmem2
    · have hne : l0.isEmpty = false := by
        cases l0 with
        | nil => simp [findCharIdx?] at hcp0
        | cons a t => rfl
      rw [if_neg (by rw [hne]; simp), hcp0]
      dsimp only
      cases hk : Http.isValidHeaderKey (l0.take cp0) with
      | false =>
        rw [if_pos (show (!false) = true from rfl)]
        exact ⟨_, rfl⟩
      | true =>
        rw [if_neg (by simp)]
        cases hv : Http.isValidHeaderValue (trimLeftWs (l0.drop (cp0 + 1))) with
        | false =>
          rw [if_pos (show (!false) = true from rfl)]
          exact ⟨_, rfl⟩
        | true =>
          rw [if_neg (by simp)]
          rw [if_pos (by rw [hci0])]
          exact ⟨_, rfl⟩
    · by_cases he : l.isEmpty = true
      · rw [if_pos he]
        exact ih acc ⟨l0, hmem2, cp0, hcp0, hci0⟩
      · rw [if_neg he]
        cases hc : findCharIdx? ':' l with
        | none => exact ⟨_, rfl⟩
        | some cp =>
          dsimp only
          cases hk : Http.isValidHeaderKey (l.take cp) with
          | false =>
            rw [if_pos (show (!false) = true from rfl)]
            exact ⟨_, rfl⟩
          | true =>
            rw [if_neg (by simp)]
            cases hv : Http.isValidHeaderValue (trimLeftWs (l.drop (cp + 1))) with
            | false =>
              rw [if_pos (show (!false) = true from rfl)]
              exact ⟨_, rfl⟩
            | true =>
              rw [if_neg (by simp)]
              cases hte : ciEqual (l.take cp) "Transfer-Encoding".toList with
              | true =>
                rw [if_pos (show true = true from rfl)]
                exact ⟨_, rfl⟩
              | false =>
                rw [if_neg (by simp)]
                cases hhost : (ciEqual (l.take cp) "Host".toList &&
                    Http.headerContains acc "Host".toList) with
                | true =>
                  rw [if_pos (show true = true from rfl)]
                  exact ⟨_, rfl⟩
                | false =>
                  rw [if_neg (by simp)]
                  exact ih _ ⟨l0, hmem2, cp0, hcp0, hci0⟩

-- ===================================================================
--  Theorems for the claims
-- ===================================================================

/-- C1 counterexample: a request carrying a valid token whose claims
hold preauth=true, addressed to the secure non-MFA path /customer, is
NOT rejected with 401: validate_token checks only token presence and
jwt::is_valid, so the handler runs and answers 200. -/
theorem claim_C1_counterexample :
    preauthJwtValid "tok".toList = some [("preauth".toList, "true".toList)] ∧
    customerEndpoint.isSecure = true ∧
    customerReq.path ≠ "/validate/totp".toList ∧
    Http.getBearerToken customerReq.headers = some "tok".toList ∧
    Server.executeHandler preauthJwtValid customerEndpoint customerReq =
      (.ok, "\x7b\x7d".toList) ∧
    (Server.executeHandler preauthJwtValid customerEndpoint customerReq).1 ≠
      Http.HStatus.unauthorized := by
  refine ⟨rfl, rfl, by decide, rfl, rfl, by decide⟩

/-- C1 amended: on a secure endpoint (with matching method) the gate
rejects with 401 exactly when the bearer token is missing or
jwt::is_valid fails; the preauth claim and the MFA path are never
consulted (no preauth-mismatch rejection exists in the code), so any
request with a valid token — pre-auth or not, MFA path or not —
proceeds to the validator and handler. -/
theorem claim_C1_amended :
    ∀ (jwtValid : Str → Option (List (Str × Str))) (ep : Server.ApiEndpoint) (req : Http.Req),
      ep.isSecure = true → ep.method = req.method →
      (Server.validateToken jwtValid req.headers = false →
        Server.executeHandler jwtValid ep req =
          (.unauthorized, Server.jsonErrorBody "Invalid or missing token".toList)) ∧
      (Server.validateToken jwtValid req.headers = true →
        Server.executeHandler jwtValid ep req = Server.afterAuth ep) := by
  intro jwtValid ep req hsec hm
  unfold Server.executeHandler
  rw [if_neg (by simp [hm]), hsec]
  constructor
  · intro hv
    rw [hv]
    simp
  · intro hv
    rw [hv]
    simp

/-- C1 witness: a tokenless request gets 401; the pre-auth token on
/customer proceeds to the handler phase. -/
theorem claim_C1_amended_witness :
    Server.executeHandler preauthJwtValid customerEndpoint
        ⟨.get, "/customer".toList, [], 0, none⟩ =
      (.unauthorized, Server.jsonErrorBody "Invalid or missing token".toList) ∧
    Server.executeHandler preauthJwtValid customerEndpoint customerReq =
      Server.afterAuth customerEndpoint :=
  ⟨(claim_C1_amended preauthJwtValid customerEndpoint ⟨.get, "/customer".toList, [], 0, none⟩ rfl rfl).1 rfl,
   (claim_C1_amended preauthJwtValid customerEndpoint customerReq rfl rfl).2 rfl⟩

/-- C2: every worker task queue is created with the configured capacity
(default 1,000 via `QUEUE_CAPACITY`); a dispatch whose round-robin
selected queue already holds capacity-many items fails with
`queue_full` (the pool state is untouched) and `dispatch_to_worker`
synthesizes a `503 Service Unavailable` response onto the response
queue for that connection. -/
theorem claim_C2_queue_capacity_503 :
    (∀ envLookup : Str → Option Nat,
      envLookup "QUEUE_CAPACITY".toList = none →
      Server.serverQueueCapacity envLookup = 1000) ∧
    (∀ (α : Type) (n cap : Nat) q,
      q ∈ (Server.ioWorkerTaskPool α n cap).queues →
      q.capacity = cap ∧ q.items = []) ∧
    (∀ (α : Type) (tp : Server.ThreadPool α) (t : α) q,
      tp.queues.get? (tp.nextQueue % tp.queues.length) = some q →
      0 < q.capacity → q.capacity ≤ q.items.length →
      tp.pushTask t = .error ()) ∧
    (∀ (α : Type) (tp : Server.ThreadPool α) (t : α)
        (respQ : Server.SharedQueue (Http.HStatus × Str)),
      tp.pushTask t = .error () →
      ¬(0 < respQ.capacity ∧ respQ.capacity ≤ respQ.items.length) →
      Server.dispatchToWorker tp t respQ =
        .overloaded ⟨respQ.items ++ [(.service_unavailable, Server.body503)], respQ.capacity⟩) := by
  refine ⟨?_, ?_, ?_, ?_⟩
  · intro envLookup h
    unfold Server.serverQueueCapacity
    rw [h]
    rfl
  · intro α n cap q hq
    have := List.eq_of_mem_replicate (by simpa [Server.ioWorkerTaskPool, Server.threadPoolInit] using hq)
    subst this
    exact ⟨rfl, rfl⟩
  · intro α tp t q hget hpos hlen
    unfold Server.ThreadPool.pushTask
    dsimp only
    rw [hget]
    dsimp only
    unfold Server.SharedQueue.push
    rw [if_pos ⟨hpos, hlen⟩]
  · intro α tp t respQ hfull hroom
    unfold Server.dispatchToWorker
    rw [hfull]
    dsimp only
    unfold Server.SharedQueue.push
    rw [if_neg (by exact_mod_cast hroom)]

/-- C2 witness: a pool with one queue of capacity 2 holding two tasks:
the push fails and the dispatch produces the 503 response; the default
capacity evaluates to 1000. -/
theorem claim_C2_queue_capacity_503_witness :
    Server.serverQueueCapacity (fun _ => none) = 1000 ∧
    ((⟨[], 7⟩ : Server.SharedQueue Unit).capacity = 7 ∧
      (⟨[], 7⟩ : Server.SharedQueue Unit).items = []) ∧
    Server.ThreadPool.pushTask (⟨[⟨[(), ()], 2⟩], 0⟩ : Server.ThreadPool Unit) () = .error () ∧
    Server.dispatchToWorker (⟨[⟨[(), ()], 2⟩], 0⟩ : Server.ThreadPool Unit) () ⟨[], 4⟩ =
      .overloaded ⟨[(.service_unavailable, Server.body503)], 4⟩ := by
  refine ⟨claim_C2_queue_capacity_503.1 (fun _ => none) rfl, ?_, ?_, ?_⟩
  · exact claim_C2_queue_capacity_503.2.1 Unit 3 7 ⟨[], 7⟩ (by decide)
  · exact claim_C2_queue_capacity_503.2.2.1 Unit ⟨[⟨[(), ()], 2⟩], 0⟩ () ⟨[(), ()], 2⟩ rfl (by decide) (by decide)
  · exact claim_C2_queue_capacity_503.2.2.2 Unit ⟨[⟨[(), ()], 2⟩], 0⟩ () ⟨[], 4⟩
      (claim_C2_queue_capacity_503.2.2.1 Unit ⟨[⟨[(), ()], 2⟩], 0⟩ () ⟨[(), ()], 2⟩ rfl (by decide) (by decide))
      (by simp)

/-- C3 counterexample: the socket buffer's maximum size is the
hardcoded constant 4 MiB, not the 5 MiB default the claim states (and
no `MAX_REQUEST_SIZE` configuration is consulted anywhere in the
buffer). -/
theorem claim_C3_counterexample :
    SockBuf.kMaxSize = 4 * 1024 * 1024 ∧ SockBuf.kMaxSize ≠ 5 * 1024 * 1024 := by
  constructor <;> decide

/-- C3 amended: the socket buffer's maximum size is the hardcoded
constant `k_max_size = 4 MiB` (not read from configuration); whenever a
read commits bytes while the buffer is at that maximum and the
committed bytes exceed 75% of it, `update_pos` raises the fatal
`socket_buffer_error` (the reactor then closes the connection), and no
successful update ever grows the buffer beyond the maximum. -/
theorem claim_C3_amended :
    SockBuf.kMaxSize = 4 * 1024 * 1024 ∧
    (∀ (b : SockBuf.SocketBuffer) (n : Int),
      b.bufSize ≥ SockBuf.kMaxSize → 0 < n →
      (b.pos + n.toNat) * 4 > b.bufSize * 3 →
      b.updatePos n = .error "Maximum buffer size reached.".toList) ∧
    (∀ (b b2 : SockBuf.SocketBuffer) (n : Int),
      b.updatePos n = .ok b2 → b.bufSize ≤ SockBuf.kMaxSize →
      b2.bufSize ≤ SockBuf.kMaxSize) := by
  refine ⟨by decide, ?_, ?_⟩
  · intro b n hsize hn hgrow
    unfold SockBuf.SocketBuffer.updatePos
    rw [if_neg (by omega), if_pos hgrow, if_pos hsize]
  · intro b b2 n h hle
    unfold SockBuf.SocketBuffer.updatePos at h
    dsimp only at h
    split at h
    · exact (Except.ok.inj h) ▸ hle
    · split at h
      · split at h
        · cases h
        · rw [← Except.ok.inj h]
          exact min_le_right _ _
      · exact (Except.ok.inj h) ▸ hle

/-- C3 witness: at the 4 MiB maximum with 3 MiB committed, one more
byte fails the parse; and a successful growth step stays within the
maximum. -/
theorem claim_C3_amended_witness :
    SockBuf.SocketBuffer.updatePos ⟨4 * 1024 * 1024, 3145728⟩ 1 =
      .error "Maximum buffer size reached.".toList ∧
    SockBuf.SocketBuffer.bufSize ⟨8192, 4000⟩ ≤ SockBuf.kMaxSize :=
  ⟨claim_C3_amended.2.1 ⟨4 * 1024 * 1024, 3145728⟩ 1 (by decide) (by decide) (by decide),
   claim_C3_amended.2.2 ⟨4096, 100⟩ ⟨8192, 4000⟩ 3900 rfl (by decide)⟩

/-- C4 counterexample: a request to `/metrics` with a non-empty
configured API key and no Authorization header is answered with
`400 Bad Request` (body `{"error":"Bad Request"}`), not with
`401 Unauthorized` as the claim states. -/
theorem claim_C4_counterexample :
    Server.handleInternalApi "secret".toList [] [] []
        ⟨.get, "/metrics".toList, [], 0, none⟩ =
      some (.bad_request, Server.bodyBadRequest) ∧
    Http.HStatus.bad_request ≠ Http.HStatus.unauthorized := by
  exact ⟨rfl, by decide⟩

/-- C4 amended: for every request to a bearer-key-protected internal
endpoint (`/metrics`, `/metricsp`, `/version`) with a non-empty
configured API key and a missing or non-matching bearer key, the server
responds `400 Bad Request` with body `{"error":"Bad Request"}` (the
warning log says "Unauthorized" but the response status is 400);
`/ping` is always served `200 OK` without any authentication. -/
theorem claim_C4_amended :
    (∀ (apiKey mj mp pn : Str) (req : Http.Req),
      (req.path = "/metrics".toList ∨ req.path = "/metricsp".toList ∨
        req.path = "/version".toList) →
      Server.checkBearerAuth apiKey req.headers = false →
      Server.handleInternalApi apiKey mj mp pn req =
        some (.bad_request, Server.bodyBadRequest)) ∧
    (∀ (apiKey mj mp pn : Str) (req : Http.Req),
      req.path = "/ping".toList →
      Server.handleInternalApi apiKey mj mp pn req = some (.ok, Server.bodyPing)) ∧
    (∀ (apiKey : Str) (headers : Http.Headers),
      apiKey ≠ [] →
      Http.headerLookup headers "Authorization".toList = none →
      Server.checkBearerAuth apiKey headers = false) := by
  refine ⟨?_, ?_, ?_⟩
  · rintro apiKey mj mp pn ⟨m, p, hs, cl, b⟩ hpath hauth
    dsimp at hpath
    rcases hpath with h | h | h <;> subst h <;>
      simp [Server.handleInternalApi, hauth]
  · rintro apiKey mj mp pn ⟨m, p, hs, cl, b⟩ hpath
    dsimp at hpath
    subst hpath
    simp [Server.handleInternalApi]
  · intro apiKey headers hkey hnone
    unfold Server.checkBearerAuth
    rw [if_neg (by simpa using hkey), hnone]

/-- C4 witness: concrete instances of the amended claim: `/version`
with a wrong bearer key gets 400, `/ping` with no headers gets 200. -/
theorem claim_C4_amended_witness :
    Server.handleInternalApi "secret".toList [] [] []
        ⟨.get, "/version".toList, [("Authorization".toList, "Bearer nope".toList)], 0, none⟩ =
      some (.bad_request, Server.bodyBadRequest) ∧
    Server.handleInternalApi "secret".toList [] [] []
        ⟨.get, "/ping".toList, [], 0, none⟩ = some (.ok, Server.bodyPing) ∧
    Server.checkBearerAuth "secret".toList [] = false := by
  refine ⟨claim_C4_amended.1 _ _ _ _ _ (by simp) (by decide), ?_, ?_⟩
  · exact claim_C4_amended.2.1 "secret".toList [] [] [] _ rfl
  · exact claim_C4_amended.2.2 "secret".toList [] (by decide) rfl

/-- C5 counterexample: for the query-string request of the spec
scenario, finalization fails and 400 is returned, but the response body
is the generic one and does NOT contain the text "URI query parameters
are not allowed" (that text only reaches the log). -/
theorem claim_C5_counterexample :
    Http.eof bufQuery = true ∧
    Http.finalize (fun _ => true) bufQuery =
      .error (Http.msgQueryNotAllowed "/products?limit=1".toList) ∧
    Server.processRequest (fun _ => true) [] [] [] [] [] (fun _ => none) bufQuery =
      .respond .bad_request Server.bodyBadRequest ∧
    containsSeq "URI query parameters are not allowed".toList Server.bodyBadRequest = false := by
  refine ⟨by decide, rfl, rfl, by decide⟩

/-- C5 amended: for every request whose URI (the second token of the
request line) contains a question mark, parse_uri fails with a message
containing "URI query parameters are not allowed", finalization fails,
and the server responds 400 Bad Request with the generic body
{"error":"Bad Request"} — which does not contain that text. -/
theorem claim_C5_amended :
    ∀ (jsonOk : Str → Bool) (origins : List Str) (apiKey mj mp pn : Str)
      (router : Str → Option Server.ApiEndpoint) (buf uri : Str) (rle : Nat),
      findSeqIdx? crlf buf = some rle →
      (splitOnSeq [' '] (buf.take rle)).get? 1 = some uri →
      uri.contains '?' = true →
      Http.parseUri uri = .error (Http.msgQueryNotAllowed uri) ∧
      containsSeq "URI query parameters are not allowed".toList (Http.msgQueryNotAllowed uri) = true ∧
      (∃ e, Http.finalize jsonOk buf = .error e) ∧
      (Http.eof buf = true →
        Server.processRequest jsonOk origins apiKey mj mp pn router buf =
          .respond .bad_request Server.bodyBadRequest) ∧
      containsSeq "URI query parameters are not allowed".toList Server.bodyBadRequest = false := by
  intro jsonOk origins apiKey mj mp pn router buf uri rle hrle hget hq
  have hpu : Http.parseUri uri = .error (Http.msgQueryNotAllowed uri) := by
    unfold Http.parseUri
    rw [if_pos hq]
  have hprl : Http.parseRequestLine (buf.take rle) = .error (Http.msgQueryNotAllowed uri) := by
    unfold Http.parseRequestLine
    cases hsp : splitOnSeq [' '] (buf.take rle) with
    | nil => rw [hsp] at hget; cases hget
    | cons a tail =>
      cases tail with
      | nil => rw [hsp] at hget; cases hget
      | cons b t2 =>
        rw [hsp] at hget
        have hb : b = uri := by simpa using hget
        subst hb
        exact hpu
  have hfin : ∃ e, Http.finalize jsonOk buf = .error e := by
    unfold Http.finalize
    by_cases heof : Http.eof buf = true
    · rw [if_pos heof]
      obtain ⟨hs, hhs⟩ := eof_headerEnd heof
      unfold Http.finalizeAux
      rw [hrle]
      dsimp only
      rw [hhs]
      dsimp only
      rw [hprl]
      exact ⟨_, rfl⟩
    · rw [if_neg heof]
      exact ⟨_, rfl⟩
  refine ⟨hpu, ?_, hfin, ?_, by decide⟩
  · have hmsg : Http.msgQueryNotAllowed uri =
        "URI query parameters are not allowed".toList ++
          (". URI: ".toList ++ ([Char.ofNat 39] ++ uri ++ [Char.ofNat 39])) := by
      unfold Http.msgQueryNotAllowed
      rw [show ("URI query parameters are not allowed. URI: ".toList : Str) =
        "URI query parameters are not allowed".toList ++ ". URI: ".toList by decide]
      simp
    rw [hmsg]
    exact containsSeq_append_self _ _
  · intro heof
    obtain ⟨e, he⟩ := hfin
    unfold Server.processRequest
    rw [he]

/-- C5 witness: the spec scenario GET /products?limit=1. -/
theorem claim_C5_amended_witness :
    Http.parseUri "/products?limit=1".toList =
      .error (Http.msgQueryNotAllowed "/products?limit=1".toList) ∧
    containsSeq "URI query parameters are not allowed".toList
      (Http.msgQueryNotAllowed "/products?limit=1".toList) = true ∧
    Server.processRequest (fun _ => false) [] [] [] [] [] (fun _ => none) bufQuery =
      .respond .bad_request Server.bodyBadRequest := by
  have h := claim_C5_amended (fun _ => false) [] [] [] [] [] (fun _ => none)
    bufQuery "/products?limit=1".toList 30 (by decide) (by decide) (by decide)
  exact ⟨h.1, h.2.1, h.2.2.2.1 (by decide)⟩

/-- C6 counterexample: a request whose URI contains the control
character 0x01 finalizes successfully and that control character sits
in the resulting path, contradicting the "no control characters"
clause. -/
theorem claim_C6_counterexample :
    Http.finalize (fun _ => true) bufCtl =
      .ok ⟨.get, "/a\x01b".toList, [("Host".toList, "h".toList)], 0, none⟩ ∧
    (∃ c ∈ ("/a\x01b".toList : Str), c.toNat < 32) := by
  refine ⟨rfl, by decide⟩

/-- C6 amended: every successfully finalized path begins with a slash,
contains no ".." substring, none of the characters percent, NUL, CR,
LF, backslash (bare CR/LF/NUL cannot appear, but other control
characters are not rejected), and is at most 2048 bytes; every URI
violating one of these conditions is rejected by parse_uri. -/
theorem claim_C6_amended :
    (∀ (jsonOk : Str → Bool) (buf : Str) (r : Http.Req),
      Http.finalize jsonOk buf = .ok r →
      r.path.head? = some '/' ∧
      containsSeq "..".toList r.path = false ∧
      (∀ c ∈ r.path, c ∉ Http.invalidPathChars) ∧
      r.path.length ≤ 2048) ∧
    (∀ uri : Str,
      (uri.head? ≠ some '/' ∨ (∃ c ∈ uri, c ∈ Http.invalidPathChars) ∨
        containsSeq "..".toList uri = true ∨ 2048 < uri.length) →
      ∃ e, Http.parseUri uri = .error e) := by
  constructor
  · intro jsonOk buf r h
    obtain ⟨uri, hu⟩ := finalize_ok_parseUri h
    obtain ⟨rfl, hq, hlen, hvalid⟩ := parseUri_ok hu
    cases hp : r.path with
    | nil => rw [hp] at hvalid; cases hvalid
    | cons c t =>
      rw [hp] at hvalid hlen
      unfold Http.isValidPath at hvalid
      rw [Bool.and_eq_true, Bool.and_eq_true] at hvalid
      obtain ⟨⟨hc, hany⟩, hdots⟩ := hvalid
      refine ⟨?_, ?_, ?_, hlen⟩
      · simp only [List.head?_cons, Option.some.injEq]
        exact beq_iff_eq.mp hc
      · simpa using hdots
      · intro x hx
        have hany2 : ((c :: t).any fun ch => Http.invalidPathChars.contains ch) = false := by
          simpa using hany
        intro hmem
        have hx2 : ((c :: t).any fun ch => Http.invalidPathChars.contains ch) = true :=
          List.any_eq_true.mpr ⟨x, hx, (List.elem_iff).mpr hmem⟩
        rw [hany2] at hx2
        cases hx2
  · intro uri hbad
    by_cases hq : uri.contains '?' = true
    · exact ⟨_, by unfold Http.parseUri; rw [if_pos hq]⟩
    · by_cases hlen : uri.length > Http.maxPathLength
      · exact ⟨_, by unfold Http.parseUri; rw [if_neg hq, if_pos hlen]⟩
      · have hval : Http.isValidPath uri = false := by
          cases uri with
          | nil => rfl
          | cons c t =>
            unfold Http.isValidPath
            dsimp only
            rcases hbad with h1 | h2 | h3 | h4
            · have hc : (c == '/') = false := by
                rcases hcc : c == '/' with - | -
                · rfl
                · exact absurd (by rw [beq_iff_eq.mp hcc]; rfl) h1
              rw [hc]
              rfl
            · obtain ⟨x, hx, hmem⟩ := h2
              have hany : ((c :: t).any fun ch => Http.invalidPathChars.contains ch) = true :=
                List.any_eq_true.mpr ⟨x, hx, (List.elem_iff).mpr hmem⟩
              rw [hany]
              simp
            · rw [h3]
              simp
            · exact absurd h4 (by unfold Http.maxPathLength at hlen; omega)
        exact ⟨_, by unfold Http.parseUri; rw [if_neg hq, if_neg hlen, if_pos (by rw [hval]; rfl)]⟩

/-- C6 witness: the finalized /ping request satisfies the invariants;
a traversal URI is rejected. -/
theorem claim_C6_amended_witness :
    (List.head? ("/ping".toList : Str) = some '/' ∧
      containsSeq "..".toList "/ping".toList = false ∧
      (∀ c ∈ ("/ping".toList : Str), c ∉ Http.invalidPathChars) ∧
      List.length ("/ping".toList : Str) ≤ 2048) ∧
    (∃ e, Http.parseUri "/a/../b".toList = .error e) := by
  constructor
  · have h := claim_C6_amended.1 (fun _ => true) bufPing
      ⟨.get, "/ping".toList, [("Host".toList, "h".toList)], 0, none⟩ rfl
    exact h
  · exact claim_C6_amended.2 "/a/../b".toList (Or.inr (Or.inr (Or.inl (by decide))))

/-- C7: a complete POST request (headers terminated, POST method
identified) with a non-empty body but no Content-Length header line
never reaches eof, and finalize always returns an error for it. -/
theorem claim_C7_post_without_cl :
    ∀ (jsonOk : Str → Bool) (buf : Str) (hs rle : Nat),
      Http.findHeaderEnd buf = some hs →
      findSeqIdx? crlf buf = some rle →
      Http.identifyMethod buf hs = some .post →
      (∀ l ∈ splitOnSeq crlf ((buf.drop (rle + 2)).take (hs - 4 - (rle + 2))),
        ∀ cp, findCharIdx? ':' l = some cp →
          ciEqual (l.take cp) "Content-Length".toList = false) →
      hs < buf.length →
      Http.eof buf = false ∧
      Http.finalize jsonOk buf = .error "Attempted to finalize before request reached eof().".toList := by
  intro jsonOk buf hs rle hhs hrle hm hnoCL hbody
  have hcl : Http.parseContentLength buf hs = none := by
    unfold Http.parseContentLength
    rw [hrle]
    dsimp only
    split
    · rfl
    · exact parseCLLines_none _ hnoCL
  have heof : Http.eof buf = false := by
    unfold Http.eof
    rw [hhs]
    dsimp only
    rw [hm]
    dsimp only
    rw [hcl]
  refine ⟨heof, ?_⟩
  unfold Http.finalize
  rw [if_neg (by rw [heof]; simp)]

/-- C7 witness: a concrete POST with body "abc" and no Content-Length
is never eof and finalize errors. -/
theorem claim_C7_post_without_cl_witness :
    Http.eof bufPostNoCL = false ∧
    Http.finalize (fun _ => true) bufPostNoCL =
      .error "Attempted to finalize before request reached eof().".toList :=
  claim_C7_post_without_cl (fun _ => true) bufPostNoCL 29 16
    (by decide) (by decide) (by decide) (by decide) (by decide)

/-- C8: for a POST whose header section spans hs bytes and whose
Content-Length parses to n, eof holds exactly when at least hs + n
bytes are buffered; for GET and OPTIONS a complete header section
suffices; and finalize succeeds only once eof holds. -/
theorem claim_C8_eof_condition :
    (∀ (buf : Str) (hs n : Nat),
      Http.findHeaderEnd buf = some hs →
      Http.identifyMethod buf hs = some .post →
      Http.parseContentLength buf hs = some n →
      (Http.eof buf = true ↔ hs + n ≤ buf.length)) ∧
    (∀ (buf : Str) (hs : Nat) (m : Http.Method),
      Http.findHeaderEnd buf = some hs →
      Http.identifyMethod buf hs = some m →
      (m = .get ∨ m = .options) →
      Http.eof buf = true) ∧
    (∀ (jsonOk : Str → Bool) (buf : Str) (r : Http.Req),
      Http.finalize jsonOk buf = .ok r → Http.eof buf = true) := by
  refine ⟨?_, ?_, ?_⟩
  · intro buf hs n hhs hm hcl
    unfold Http.eof
    rw [hhs]
    dsimp only
    rw [hm]
    dsimp only
    rw [hcl]
    dsimp only
    rw [decide_eq_true_iff]
  · intro buf hs m hhs hm hge
    unfold Http.eof
    rw [hhs]
    dsimp only
    rw [hm]
    rcases hge with rfl | rfl <;> rfl
  · intro jsonOk buf r h
    unfold Http.finalize at h
    by_cases heof : Http.eof buf = true
    · exact heof
    · rw [if_neg heof] at h
      cases h

/-- C8 witness: the POST with Content-Length 3, a GET, and a finalized
GET exercise the three parts. -/
theorem claim_C8_eof_condition_witness :
    (Http.eof bufPostCL = true ↔ 39 + 3 ≤ bufPostCL.length) ∧
    Http.eof bufPing = true ∧
    Http.eof bufPing = true := by
  refine ⟨?_, ?_, ?_⟩
  · exact claim_C8_eof_condition.1 bufPostCL 39 3 (by decide) (by decide) (by decide)
  · exact claim_C8_eof_condition.2.1 bufPing 31 .get (by decide) (by decide) (Or.inl rfl)
  · exact claim_C8_eof_condition.2.2 (fun _ => true) bufPing
      ⟨.get, "/ping".toList, [("Host".toList, "h".toList)], 0, none⟩ rfl

/-- C9: for any buffered request whose header block contains a line
with a case-insensitive Transfer-Encoding key (any value, with or
without Content-Length), finalize fails, and whenever the request is
complete (eof) process_request answers 400 Bad Request with the
generic error body. -/
theorem claim_C9_transfer_encoding :
    ∀ (jsonOk : Str → Bool) (origins : List Str) (apiKey mj mp pn : Str)
      (router : Str → Option Server.ApiEndpoint) (buf : Str) (hs rle : Nat),
      Http.findHeaderEnd buf = some hs →
      findSeqIdx? crlf buf = some rle →
      (∃ l ∈ splitOnSeq crlf ((buf.drop (rle + 2)).take (hs - 4 - (rle + 2))),
        ∃ cp, findCharIdx? ':' l = some cp ∧
          ciEqual (l.take cp) "Transfer-Encoding".toList = true) →
      (∃ e, Http.finalize jsonOk buf = .error e) ∧
      (Http.eof buf = true →
        Server.processRequest jsonOk origins apiKey mj mp pn router buf =
          .respond .bad_request Server.bodyBadRequest) := by
  intro jsonOk origins apiKey mj mp pn router buf hs rle hhs hrle hte
  have hfin : ∃ e, Http.finalize jsonOk buf = .error e := by
    unfold Http.finalize
    by_cases heof : Http.eof buf = true
    · rw [if_pos heof]
      unfold Http.finalizeAux
      rw [hrle]
      dsimp only
      rw [hhs]
      dsimp only
      cases hprl : Http.parseRequestLine (buf.take rle) with
      | error e =>
        exact ⟨e, rfl⟩
      | ok path =>
        dsimp only
        obtain ⟨e, he⟩ := parseHeaderLines_te_error [] _ hte
        have hpb : Http.parseHeadersBlock ((buf.drop (rle + 2)).take (hs - 4 - (rle + 2))) =
            .error e := he
        rw [hpb]
        exact ⟨e, rfl⟩
    · rw [if_neg heof]
      exact ⟨_, rfl⟩
  refine ⟨hfin, ?_⟩
  intro heof
  obtain ⟨e, he⟩ := hfin
  unfold Server.processRequest
  rw [he]

/-- C9 witness: a GET with "Transfer-Encoding: chunked" fails finalize
and is answered 400. -/
theorem claim_C9_transfer_encoding_witness :
    (∃ e, Http.finalize (fun _ => true) bufTE = .error e) ∧
    Server.processRequest (fun _ => true) [] [] [] [] [] (fun _ => none) bufTE =
      .respond .bad_request Server.bodyBadRequest := by
  have h := claim_C9_transfer_encoding (fun _ => true) [] [] [] [] [] (fun _ => none)
    bufTE 55 14 (by decide) (by decide)
    ⟨"Transfer-Encoding: chunked".toList, by decide, 17, by decide, by decide⟩
  exact ⟨h.1, h.2 (by decide)⟩

/-- C10: request::get_bearer_token yields a token exactly when the
Authorization value starts with the case-sensitive prefix "Bearer "
(returning the suffix after those 7 bytes) and yields none otherwise;
the internal-endpoint check_bearer_auth accepts the "bearer " scheme
prefix case-insensitively (requiring length at least 7 and an exact key
match after the prefix); the header-name lookup itself is
case-insensitive. -/
theorem claim_C10_bearer_schemes :
    (∀ (headers : Http.Headers) (v : Str),
      Http.headerLookup headers "Authorization".toList = some v →
      Http.getBearerToken headers =
        (if "Bearer ".toList.isPrefixOf v then some (v.drop 7) else none)) ∧
    (∀ headers : Http.Headers,
      Http.headerLookup headers "Authorization".toList = none →
      Http.getBearerToken headers = none) ∧
    (∀ (apiKey : Str) (headers : Http.Headers) (v : Str),
      apiKey ≠ [] →
      Http.headerLookup headers "Authorization".toList = some v →
      (Server.checkBearerAuth apiKey headers = true ↔
        7 ≤ v.length ∧ ciEqual (v.take 7) "bearer ".toList = true ∧ v.drop 7 = apiKey)) ∧
    (∀ (hs : Http.Headers) (k1 k2 : Str),
      ciEqual k1 k2 = true →
      Http.headerLookup hs k1 = Http.headerLookup hs k2) := by
  refine ⟨?_, ?_, ?_, headerLookup_ci⟩
  · intro headers v hv
    unfold Http.getBearerToken
    rw [hv]
  · intro headers hnone
    unfold Http.getBearerToken
    rw [hnone]
  · intro apiKey headers v hkey hv
    unfold Server.checkBearerAuth
    rw [if_neg (by simpa using hkey), hv]
    dsimp only
    by_cases h7 : v.length < 7
    · rw [if_pos h7]
      constructor
      · intro hfalse
        cases hfalse
      · rintro ⟨hlen, -, -⟩
        omega
    · rw [if_neg h7]
      by_cases hci : ciEqual (v.take 7) "bearer ".toList = true
      · rw [if_neg (by rw [hci]; simp)]
        constructor
        · intro hdrop
          exact ⟨by omega, hci, by simpa using hdrop⟩
        · rintro ⟨-, -, hdrop⟩
          simpa using hdrop
      · rw [if_pos (by simpa using hci)]
        constructor
        · intro hfalse
          cases hfalse
        · rintro ⟨-, hc, -⟩
          exact absurd hc hci

/-- C10 witness: an upper-cased header name still resolves; a
lower-cased "bearer " scheme is rejected by get_bearer_token but
accepted by check_bearer_auth. -/
theorem claim_C10_bearer_schemes_witness :
    Http.getBearerToken [("AUTHORIZATION".toList, "Bearer tok".toList)] = some "tok".toList ∧
    Http.getBearerToken [("Authorization".toList, "bearer tok".toList)] = none ∧
    Server.checkBearerAuth "tok".toList [("Authorization".toList, "bearer tok".toList)] = true ∧
    Http.headerLookup [("Authorization".toList, "x".toList)] "authorization".toList =
      Http.headerLookup [("Authorization".toList, "x".toList)] "AUTHORIZATION".toList := by
  refine ⟨?_, ?_, ?_, ?_⟩
  · rw [claim_C10_bearer_schemes.1 [("AUTHORIZATION".toList, "Bearer tok".toList)]
      "Bearer tok".toList (by decide)]
    rfl
  · rw [claim_C10_bearer_schemes.1 [("Authorization".toList, "bearer tok".toList)]
      "bearer tok".toList (by decide)]
    rfl
  · exact (claim_C10_bearer_schemes.2.2.1 "tok".toList
      [("Authorization".toList, "bearer tok".toList)] "bearer tok".toList
      (by decide) (by decide)).mpr ⟨by decide, by decide, by decide⟩
  · exact claim_C10_bearer_schemes.2.2.2 [("Authorization".toList, "x".toList)]
      "authorization".toList "AUTHORIZATION".toList (by decide)
